import Mathlib

/-! Shallow embedding of the driver/dispatch layer of the rustun repository
(src/client.rs and src/server.rs). The Channel, the sockets and the task
spawner are external collaborators; they are modelled as event scripts
(one event per poll call) and as effect lists (one entry per spawned task
or channel operation). Machine-level details (attribute codecs, socket
addresses, message payloads) are abstracted to natural numbers, which the
code never inspects.
-/

/-- Peers, requests, indications, responses and invalid messages are opaque
payloads to the driver layer; they are modelled as naturals. -/
abbrev Peer := Nat

abbrev Request := Nat

abbrev Indication := Nat

abbrev Response := Nat

abbrev InvalidMessage := Nat

/-- Unified error type (`Error` in the source). `track_panic!(ErrorKind::Other, msg)`
produces `other msg`; transport faults are abstracted as `transport code`.
`Clone` for the source error type is modelled as the identity. -/
inductive Error where
  | transport (code : Nat)
  | other (msg : String)
deriving DecidableEq, Repr

/-! Client side: src/client.rs -/

/-- Identifier of the single-use reply slot (`oneshot::Monitored`) carried by a
`Command::Call`; each `Client::call` creates a fresh one. -/
abbrev SlotId := Nat

/-- Model of `Command` from src/client.rs: `Call(peer, request, reply_slot)` or
`Cast(peer, indication)`. -/
inductive Command where
  | call (peer : Peer) (req : Request) (slot : SlotId)
  | cast (peer : Peer) (ind : Indication)
deriving DecidableEq, Repr

/-- One result of polling the client-side Channel message stream
(`Channel::poll` returns `Poll<Option<Message>, Error>`). -/
inductive CChanEv where
  | notReady
  | endOfStream
  | chanErr (e : Error)
  | msg (m : Nat)
deriving DecidableEq, Repr

/-- Abstract state of the external Channel as seen by the client driver:
`nextTx` numbers the per-invocation futures returned by `Channel::call`,
`outstanding` is `outstanding_transactions()`, `script` is the sequence of
results its `poll` will produce, and `casts` records the indications sent. -/
structure Chan where
  nextTx : Nat
  outstanding : Nat
  script : List CChanEv
  casts : List (Peer × Indication)
deriving DecidableEq, Repr

/-- Model of `Channel::call(peer, request)`: registers a fresh transaction and returns
the identifier of the per-invocation response future. -/
def Chan.call (c : Chan) (_peer : Peer) (_req : Request) : Chan × Nat :=
  ({ c with nextTx := c.nextTx + 1, outstanding := c.outstanding + 1 }, c.nextTx)

/-- Model of `Channel::cast(peer, indication)`: best-effort send, recorded only. -/
def Chan.cast (c : Chan) (peer : Peer) (ind : Indication) : Chan :=
  { c with casts := c.casts ++ [(peer, ind)] }

deriving instance DecidableEq for Except

/-- State of `ChannelDriver` from src/client.rs: `channel` is
`Result<Channel>` (failed drivers store the error), `pending` holds the
commands currently buffered in `command_rx`, and `rxClosed` records whether
every `Client` handle has been dropped. -/
structure CDrv where
  channel : Except Error Chan
  pending : List Command
  rxClosed : Bool
deriving DecidableEq, Repr

/-- Reply-slot resolution effects emitted while handling commands:
`resolveNow slot r` is `reply.exit(r)` performed synchronously (failed
channel), and `spawnCompletion slot tx` is the spawned completion task that
will write `slot` with the outcome of call-future `tx`. -/
inductive CEffect where
  | resolveNow (slot : SlotId) (r : Except Error Response)
  | spawnCompletion (slot : SlotId) (tx : Nat)
deriving DecidableEq, Repr

/-- The reply slot an effect eventually writes. -/
def CEffect.slot : CEffect → SlotId
  | .resolveNow s _ => s
  | .spawnCompletion s _ => s

/-- The call-future identifier of a spawned completion task, if any. -/
def CEffect.tx? : CEffect → Option Nat
  | .resolveNow _ _ => none
  | .spawnCompletion _ t => some t

/-- Semantics of an emitted effect, given the environment assignment
`outcome` of results to call futures: the list of `(slot, value)` writes it
performs (`reply.exit` in the source). -/
def runCompletion (outcome : Nat → Except Error Response) :
    CEffect → List (SlotId × Except Error Response)
  | .resolveNow s r => [(s, r)]
  | .spawnCompletion s t => [(s, outcome t)]

namespace ChannelDriver

/-- Model of `ChannelDriver::handle_command` from src/client.rs. A `Cast` is forwarded
to the channel when it is live and silently dropped otherwise; a `Call` is
answered at once with a clone of the stored error when the channel has
failed, and otherwise starts a channel call and spawns the completion task
for that invocation. -/
def handleCommand (st : CDrv) (cmd : Command) : CDrv × List CEffect :=
  match cmd with
  | .cast peer ind =>
    match st.channel with
    | .ok c => ({ st with channel := .ok (c.cast peer ind) }, [])
    | .error _ => (st, [])
  | .call peer req slot =>
    match st.channel with
    | .error e => (st, [.resolveNow slot (.error e)])
    | .ok c =>
      let p := c.call peer req
      ({ st with channel := .ok p.1 }, [.spawnCompletion slot p.2])

/-- Handling a whole batch of buffered commands, in queue order, as the drain
loop of `ChannelDriver::poll` does. -/
def handleCommands (st : CDrv) : List Command → CDrv × List CEffect
  | [] => (st, [])
  | c :: rest =>
    let p := handleCommand st c
    let q := handleCommands p.1 rest
    (q.1, p.2 ++ q.2)

end ChannelDriver

/-- The reply slots of the `Call` commands of a batch, in order. -/
def callSlots : List Command → List SlotId
  | [] => []
  | .call _ _ s :: rest => s :: callSlots rest
  | .cast _ _ :: rest => callSlots rest

/-- The number of `Call` commands in a batch. -/
def numCalls (cmds : List Command) : Nat := (callSlots cmds).length


/-- Result of one call of `ChannelDriver::poll`: the driver either completes
(`Ok(Async::Ready(()))`) or stays pending with an updated state. -/
inductive ClientPollRes where
  | ready
  | notReady (st : CDrv)
deriving DecidableEq, Repr

/-- Result of the channel-poll loop of `ChannelDriver::poll` on the channel
script: the loop either breaks with the unconsumed remainder (`pending`),
moves the driver into the failed state (`failed`), or sees the inbound
stream end (`eos`); received messages are ignored and scanned past. -/
inductive ScanRes where
  | pending (rest : List CChanEv)
  | failed (e : Error)
  | eos (rest : List CChanEv)
deriving DecidableEq, Repr

/-- The channel-poll loop, acting on the poll script: stops at the first
not-ready (or exhausted script), error, or end of stream. -/
def scanScript : List CChanEv → ScanRes
  | [] => .pending []
  | .notReady :: rest => .pending rest
  | .chanErr e :: _ => .failed e
  | .endOfStream :: rest => .eos rest
  | .msg _ :: rest => scanScript rest

namespace ChannelDriver

/-- The command-drain loop of `ChannelDriver::poll`, acting on the buffered
commands: handles each in order; when the queue is exhausted and closed
(every client dropped) it reports immediate termination exactly when the
channel — a failed one counting as zero — has no outstanding transactions.
The returned flag is true when the driver returns `Ready` at once. -/
def drainAux (closed : Bool) (ch : Except Error Chan) :
    List Command → Except Error Chan × List CEffect × Bool
  | [] =>
    if closed then
      let outc := match ch with
        | .ok c => c.outstanding
        | .error _ => 0
      (ch, [], outc == 0)
    else
      (ch, [], false)
  | c :: rest =>
    let p := handleCommand ⟨ch, rest, closed⟩ c
    let q := drainAux closed p.1.channel rest
    (q.1, p.2 ++ q.2.1, q.2.2)

/-- The channel-poll loop of `ChannelDriver::poll`: while the channel is
live, poll it; an error moves the driver into the failed state (the loop
then exits since `is_ok` is false), end of the message stream terminates
the driver. Returns the new channel state and whether the driver returns
`Ready`. -/
def chanLoop : Except Error Chan → Except Error Chan × Bool
  | .error e => (.error e, false)
  | .ok c =>
    match scanScript c.script with
    | .pending rest => (.ok { c with script := rest }, false)
    | .failed e => (.error e, false)
    | .eos rest => (.ok { c with script := rest }, true)

/-- One call of `ChannelDriver::poll` from src/client.rs: drain the command
queue (possibly terminating because it is closed with nothing outstanding),
then run the channel loop (possibly terminating on end of stream). -/
def poll (st : CDrv) : ClientPollRes × List CEffect :=
  let d := drainAux st.rxClosed st.channel st.pending
  if d.2.2 then (.ready, d.2.1)
  else
    let c := chanLoop d.1
    if c.2 then (.ready, d.2.1)
    else (.notReady ⟨c.1, [], st.rxClosed⟩, d.2.1)

end ChannelDriver

/-- The `outstanding_transactions` count of a possibly-failed channel; the
source maps a failed channel to zero with `.ok().map_or(0, ..)`. -/
def liveOutstanding : Except Error Chan → Nat
  | .ok c => c.outstanding
  | .error _ => 0

/-- The outstanding-transaction count the drain loop observes after handling
every buffered command. -/
def outstandingAfterDrain (st : CDrv) : Nat :=
  liveOutstanding (ChannelDriver.drainAux st.rxClosed st.channel st.pending).1

/-- Whether the channel-poll loop reaches a clean end of the inbound message
stream this turn. -/
def hitsEos (ch : Except Error Chan) : Bool :=
  match ch with
  | .error _ => false
  | .ok c =>
    match scanScript c.script with
    | .eos _ => true
    | _ => false

/-! Server side: src/server.rs -/

namespace Server

/-- Model of `Action<T>` from src/server.rs. The boxed futures of `FutureReply` and
`FutureNoReply` are opaque to the driver; they are modelled as tokens whose
eventual values are supplied by the environment. -/
inductive Action (T : Type) where
  | Reply (m : T)
  | FutureReply (f : Nat)
  | NoReply
  | FutureNoReply (f : Nat)
deriving DecidableEq, Repr

end Server

/-- Model of `RecvMessage` from the channel module: the three kinds of inbound
message dispatched by `HandlerDriver::handle_message`. -/
inductive RecvMessage where
  | indication (m : Indication)
  | request (m : Request)
  | invalid (m : InvalidMessage)
deriving DecidableEq, Repr

/-- One result of polling the server-side Channel
(`Channel::poll` returns `Poll<Option<(SocketAddr, RecvMessage)>, Error>`). -/
inductive SChanEv where
  | notReady
  | endOfStream
  | chanErr (e : Error)
  | msg (peer : Peer) (m : RecvMessage)
deriving DecidableEq, Repr

/-- The `HandleMessage` capability set: `handle_cast` yields an
`Action<Never>` (`Empty` here), the other two yield `Action<Response>`.
`handle_transport_error` is a pure notification and is recorded as an
effect by the driver model. -/
structure Handler where
  handleCall : Peer → Request → Server.Action Response
  handleCast : Peer → Indication → Server.Action Empty
  handleInvalidMessage : Peer → InvalidMessage → Server.Action Response

/-- Effects of one `HandlerDriver` scheduling turn. Both `replyDirect` and
`replyFromQueue` are calls of `Channel::reply(peer, response)`; the tag
records whether the write came from a synchronous `Action::Reply` or from
draining the internal reply queue (`response_rx`). -/
inductive SEffect where
  | replyDirect (peer : Peer) (m : Response)
  | replyFromQueue (peer : Peer) (m : Response)
  | spawnNoReply (f : Nat)
  | spawnDeferredReply (peer : Peer) (f : Nat)
  | notifyTransportError (e : Error)
deriving DecidableEq, Repr

/-- Panics a `HandlerDriver` turn can raise: `unreachableHit` is the
`unreachable!()` arm of `handle_indication`; `expectFailed` is the
`expect("never fails")` on the reply-queue read observing `Ready(None)`. -/
inductive Panic where
  | unreachableHit
  | expectFailed
deriving DecidableEq, Repr

namespace HandlerDriver

/-- Model of `HandlerDriver::handle_indication`: `NoReply` does nothing,
`FutureNoReply` spawns the future, and the wildcard arm
(`Reply`/`FutureReply`) is `unreachable!()`. -/
def handleIndication (h : Handler) (peer : Peer) (ind : Indication) :
    Except Panic (List SEffect) :=
  match h.handleCast peer ind with
  | .NoReply => .ok []
  | .FutureNoReply f => .ok [.spawnNoReply f]
  | .Reply _ => .error .unreachableHit
  | .FutureReply _ => .error .unreachableHit

/-- Model of `HandlerDriver::handle_request`: all four actions are accepted. `Reply`
writes the channel synchronously; `FutureReply` spawns a task holding a
clone of `response_tx` that will push `(peer, response)` into the reply
queue on completion. -/
def handleRequest (h : Handler) (peer : Peer) (req : Request) : List SEffect :=
  match h.handleCall peer req with
  | .NoReply => []
  | .FutureNoReply f => [.spawnNoReply f]
  | .Reply m => [.replyDirect peer m]
  | .FutureReply f => [.spawnDeferredReply peer f]

/-- Model of `HandlerDriver::handle_invalid_message`: same four-variant contract as
requests. -/
def handleInvalid (h : Handler) (peer : Peer) (m : InvalidMessage) : List SEffect :=
  match h.handleInvalidMessage peer m with
  | .NoReply => []
  | .FutureNoReply f => [.spawnNoReply f]
  | .Reply m => [.replyDirect peer m]
  | .FutureReply f => [.spawnDeferredReply peer f]

/-- Model of `HandlerDriver::handle_message`: dispatch by message kind. -/
def handleMessage (h : Handler) (peer : Peer) :
    RecvMessage → Except Panic (List SEffect)
  | .indication m => handleIndication h peer m
  | .request m => .ok (handleRequest h peer m)
  | .invalid m => .ok (handleInvalid h peer m)

end HandlerDriver

/-- Semantics of the closure spawned for `Action::FutureReply`: when the
deferred computation completes with `response`, it sends
`(peer, response)` into the internal reply queue (`tx.send`), rather than
writing the Channel. -/
def deferredCompletion (peer : Peer) (response : Response)
    (queue : List (Peer × Response)) : List (Peer × Response) :=
  queue ++ [(peer, response)]

/-- State of a `HandlerDriver` between scheduling turns: the remaining
channel poll script, the content of the internal reply queue
(`response_rx`, in completion order), and whether the driver still holds
its own `response_tx` sender (set at construction, never given up). -/
structure HDrvSt where
  script : List SChanEv
  queue : List (Peer × Response)
  txAlive : Bool
deriving DecidableEq, Repr

/-- Result of one call of `HandlerDriver::poll`. -/
inductive PollRes where
  | terminated
  | errored (e : Error)
  | notReady (st : HDrvSt)
  | panicked (p : Panic)
deriving DecidableEq, Repr

namespace HandlerDriver

/-- Model of `HandlerDriver::new`: a fresh mpsc reply queue is created, empty, and
the driver keeps `response_tx` for its whole lifetime. -/
def new (script : List SChanEv) : HDrvSt := ⟨script, [], true⟩

/-- The residual loop of `HandlerDriver::poll` once the channel poll script
is exhausted (the channel stays not-ready): each iteration drains one reply
queue item; when the queue is empty the read is not-ready while a sender is
alive, and `Ready(None)` — hitting the `expect` — otherwise. -/
def drainOnly (txAlive : Bool) (acc : List SEffect) :
    List (Peer × Response) → PollRes × List SEffect
  | [] =>
    if txAlive then (.notReady ⟨[], [], txAlive⟩, acc)
    else (.panicked .expectFailed, acc)
  | (p, m) :: rest => drainOnly txAlive (acc ++ [.replyFromQueue p m]) rest

/-- Model of `HandlerDriver::poll` from src/server.rs: loop while progress is made;
each iteration first polls the channel (an error notifies the handler and
propagates; end of stream completes the driver; a message is dispatched)
and then reads at most one completed deferred reply from the internal
queue, forwarding it with `Channel::reply`. -/
def pollLoop (h : Handler) (acc : List SEffect) :
    List SChanEv → List (Peer × Response) → Bool → PollRes × List SEffect
  | [], queue, txAlive => drainOnly txAlive acc queue
  | .chanErr e :: _, _, _ => (.errored e, acc ++ [.notifyTransportError e])
  | .endOfStream :: _, _, _ => (.terminated, acc)
  | .notReady :: rest, queue, txAlive =>
    match queue with
    | (p, m) :: qrest => pollLoop h (acc ++ [.replyFromQueue p m]) rest qrest txAlive
    | [] =>
      if txAlive then (.notReady ⟨rest, [], txAlive⟩, acc)
      else (.panicked .expectFailed, acc)
  | .msg peer m :: rest, queue, txAlive =>
    match handleMessage h peer m with
    | .error p => (.panicked p, acc)
    | .ok effs =>
      match queue with
      | (p, r) :: qrest => pollLoop h (acc ++ effs ++ [.replyFromQueue p r]) rest qrest txAlive
      | [] =>
        if txAlive then pollLoop h (acc ++ effs) rest [] txAlive
        else (.panicked .expectFailed, acc ++ effs)

/-- One call of `HandlerDriver::poll` on a driver state. -/
def poll (h : Handler) (st : HDrvSt) : PollRes × List SEffect :=
  pollLoop h [] st.script st.queue st.txAlive

end HandlerDriver

/-- The `(peer, response)` pairs an effect list forwarded out of the reply
queue, in order. -/
def queueSends : List SEffect → List (Peer × Response)
  | [] => []
  | .replyFromQueue p m :: rest => (p, m) :: queueSends rest
  | _ :: rest => queueSends rest

/-! Server lifecycle: UdpServer and TcpServer -/

/-- Status of a socket bind future at the current poll. -/
inductive BindSt where
  | pendingBind
  | bound
  | bindFailed (e : Error)
deriving DecidableEq, Repr

/-- Model of `UdpServerInner`: `Binding` (carrying the channel poll script the bound
socket will produce) or `Running` with its single driver. -/
inductive UdpState where
  | binding (bind : BindSt) (chanScript : List SChanEv)
  | running (drv : HDrvSt)
deriving DecidableEq, Repr

/-- Result of one call of `UdpServerInner::poll`. The `ready` constructor
mirrors `Ok(Async::Ready(..))` of the `Item = Never` signature. -/
inductive UdpRes where
  | ready
  | err (e : Error)
  | notReady (st : UdpState)
  | panicked (p : Panic)
deriving DecidableEq, Repr

/-- Rank of a `UdpServerInner` state: `Binding` before `Running`. -/
def UdpState.rank : UdpState → Nat
  | .binding _ _ => 0
  | .running _ => 1

namespace UdpServerInner

/-- The `Running` arm of `UdpServerInner::poll`: poll the driver; clean
driver completion is the fatal "unexpectedly terminated" error, a driver
error propagates, and not-ready keeps running. -/
def pollDriver (h : Handler) (d : HDrvSt) : UdpRes × List SEffect :=
  match HandlerDriver.poll h d with
  | (.terminated, effs) => (.err (.other "UDP server unexpectedly terminated"), effs)
  | (.errored e, effs) => (.err e, effs)
  | (.notReady s, effs) => (.notReady (.running s), effs)
  | (.panicked p, effs) => (.panicked p, effs)

/-- Model of `UdpServerInner::poll`: while `Binding`, poll the bind; on success build
the channel and driver, transition to `Running`, and poll the driver within
the same turn. -/
def poll (h : Handler) : UdpState → UdpRes × List SEffect
  | .binding .pendingBind cs => (.notReady (.binding .pendingBind cs), [])
  | .binding (.bindFailed e) _ => (.err e, [])
  | .binding .bound cs => pollDriver h (HandlerDriver.new cs)
  | .running d => pollDriver h d

end UdpServerInner

/-- One result of polling the TCP accept stream `Incoming`: not ready, the
stream ended (`Ready(None)`), an accept error, or an accepted connection
carrying the peer address and the connection-establishment outcome (the
channel poll script of the established stream, or the handshake error). -/
inductive AcceptEv where
  | notReady
  | endOfAccepts
  | acceptErr (e : Error)
  | conn (addr : Peer) (res : Except Error (List SChanEv))
deriving DecidableEq, Repr

/-- Model of `TcpServerInner`: `Binding` or `Listening`. `counter` is the state of
the handler factory: the number of handlers created so far, so handler
number `counter` is the next fresh one. -/
inductive TcpState where
  | binding (bind : BindSt) (accepts : List AcceptEv)
  | listening (accepts : List AcceptEv) (counter : Nat)
deriving DecidableEq, Repr

/-- Tasks the TCP listener spawns: one connection task per accepted
connection, tagged with the index of the fresh handler made for it. -/
inductive TcpEffect where
  | spawnConn (handlerIdx : Nat) (addr : Peer) (res : Except Error (List SChanEv))
deriving DecidableEq, Repr

/-- Result of one call of `TcpServerInner::poll`. -/
inductive TcpRes where
  | ready
  | err (e : Error)
  | notReady (st : TcpState)
deriving DecidableEq, Repr

/-- Rank of a `TcpServerInner` state: `Binding` before `Listening`. -/
def TcpState.rank : TcpState → Nat
  | .binding _ _ => 0
  | .listening _ _ => 1

namespace TcpServerInner

/-- The `Listening` arm of `TcpServerInner::poll`: poll the accept stream
once per turn. An accepted connection makes one fresh handler from the
factory and spawns one connection task, then breaks; `Ready(None)` is the
fatal "unexpectedly terminated" error; an accept error propagates. -/
def listenStep : List AcceptEv → Nat → TcpRes × List TcpEffect
  | [], k => (.notReady (.listening [] k), [])
  | .notReady :: rest, k => (.notReady (.listening rest k), [])
  | .acceptErr e :: _, _ => (.err e, [])
  | .endOfAccepts :: _, _ => (.err (.other "TCP server unexpectedly terminated"), [])
  | .conn addr res :: rest, k =>
    (.notReady (.listening rest (k + 1)), [.spawnConn k addr res])

/-- Model of `TcpServerInner::poll`: while `Binding`, poll the bind; on success
transition to `Listening` and poll the accept stream within the same
turn. -/
def poll : TcpState → TcpRes × List TcpEffect
  | .binding .pendingBind acc => (.notReady (.binding .pendingBind acc), [])
  | .binding (.bindFailed e) _ => (.err e, [])
  | .binding .bound acc => listenStep acc 0
  | .listening acc k => listenStep acc k

end TcpServerInner

/-- Semantics of a spawned connection task (the `future.then(..)` closure in
`TcpServerInner::poll`): if connection establishment failed, the error is
delivered to the fresh handler's `handle_transport_error` (first component)
and the attempt is abandoned; otherwise a `HandlerDriver` is built over the
established stream's channel. -/
def runConnTask (res : Except Error (List SChanEv)) :
    Option Error × Option HDrvSt :=
  match res with
  | .error e => (some e, none)
  | .ok script => (none, some (HandlerDriver.new script))

/-- A no-op handler: every capability keeps its default `NoReply`. -/
def hNoop : Handler :=
  ⟨fun _ _ => .NoReply, fun _ _ => .NoReply, fun _ _ => .NoReply⟩

/-- A handler that breaks the indication contract by returning
`FutureReply` from `handle_cast`. -/
def hBadCast : Handler :=
  ⟨fun _ _ => .NoReply, fun _ _ => .FutureReply 5, fun _ _ => .NoReply⟩

/-- A handler answering requests with a deferred reply and invalid messages
with an immediate reply. -/
def hDeferred : Handler :=
  ⟨fun _ _ => .FutureReply 3, fun _ _ => .NoReply, fun p _ => .Reply p⟩

/-! Theorems about the embedded drivers -/

/-- C3: once the driver's channel has failed with error `e` (a channel poll
returned an error, which is exactly what moves `chanLoop` into the failed
state), every subsequently handled `Call` is resolved immediately with a
clone of the stored error without touching the channel (the driver state is
unchanged), and every subsequently handled `Cast` is silently discarded. -/
theorem c3_failed_channel_fast_errors (st : CDrv) (e : Error)
    (hc : st.channel = .error e) :
    (∀ peer req slot,
      ChannelDriver.handleCommand st (.call peer req slot)
        = (st, [.resolveNow slot (.error e)]))
    ∧ (∀ peer ind, ChannelDriver.handleCommand st (.cast peer ind) = (st, []))
    ∧ (∀ c e2 rest, c.script = .chanErr e2 :: rest →
        ChannelDriver.chanLoop (.ok c) = (.error e2, false)) := by
  refine ⟨?_, ?_, ?_⟩
  · intro peer req slot
    simp [ChannelDriver.handleCommand, hc]
  · intro peer ind
    simp [ChannelDriver.handleCommand, hc]
  · intro c e2 rest hr
    simp [ChannelDriver.chanLoop, hr, scanScript]

/-- Witness for C3 at a concrete failed driver state. -/
theorem c3_witness :
    ChannelDriver.handleCommand ⟨.error (.transport 7), [], false⟩ (.call 1 2 3)
      = (⟨.error (.transport 7), [], false⟩, [.resolveNow 3 (.error (.transport 7))])
    ∧ ChannelDriver.handleCommand ⟨.error (.transport 7), [], false⟩ (.cast 4 5)
      = (⟨.error (.transport 7), [], false⟩, []) := by
  have h := c3_failed_channel_fast_errors ⟨.error (.transport 7), [], false⟩ (.transport 7) rfl
  exact ⟨h.1 1 2 3, h.2.1 4 5⟩

/-- C4: dispatching an indication accepts exactly `NoReply` (do nothing) and
`FutureNoReply` (spawn the future); any reply-bearing action hits the
assertion-failure arm, which panics the driver turn — detectable, not
silently swallowed — and that arm is taken exactly when the handler breaks
the contract. -/
theorem c4_indication_contract (h : Handler) (peer : Peer) (ind : Indication) :
    (h.handleCast peer ind = .NoReply →
      HandlerDriver.handleIndication h peer ind = .ok [])
    ∧ (∀ f, h.handleCast peer ind = .FutureNoReply f →
      HandlerDriver.handleIndication h peer ind = .ok [.spawnNoReply f])
    ∧ (∀ f, h.handleCast peer ind = .FutureReply f →
      HandlerDriver.handleIndication h peer ind = .error .unreachableHit)
    ∧ (∀ f rest queue, h.handleCast peer ind = .FutureReply f →
      (HandlerDriver.pollLoop h [] (.msg peer (.indication ind) :: rest) queue true).1
        = .panicked .unreachableHit)
    ∧ ((HandlerDriver.handleIndication h peer ind).isOk = true ↔
      h.handleCast peer ind = .NoReply
        ∨ ∃ f, h.handleCast peer ind = .FutureNoReply f) := by
  refine ⟨?_, ?_, ?_, ?_, ?_⟩
  · intro ha
    simp [HandlerDriver.handleIndication, ha]
  · intro f ha
    simp [HandlerDriver.handleIndication, ha]
  · intro f ha
    simp [HandlerDriver.handleIndication, ha]
  · intro f rest queue ha
    simp [HandlerDriver.pollLoop, HandlerDriver.handleMessage,
      HandlerDriver.handleIndication, ha]
  · cases ha : h.handleCast peer ind with
    | Reply m => exact m.elim
    | FutureReply f => simp [HandlerDriver.handleIndication, ha, Except.isOk, Except.toBool]
    | NoReply => simp [HandlerDriver.handleIndication, ha, Except.isOk, Except.toBool]
    | FutureNoReply f => simp [HandlerDriver.handleIndication, ha, Except.isOk, Except.toBool]

/-- Witness for C4: the contract-breaking handler panics the dispatch. -/
theorem c4_witness :
    HandlerDriver.handleIndication hBadCast 0 9 = .error .unreachableHit
    ∧ (HandlerDriver.pollLoop hBadCast [] [.msg 0 (.indication 9)] [] true).1
      = .panicked .unreachableHit := by
  have h := c4_indication_contract hBadCast 0 9
  exact ⟨h.2.2.1 5 rfl, h.2.2.2.1 5 [] [] rfl⟩

/-- C5: dispatching a request — and identically an invalid message — accepts
all four actions: `NoReply` does nothing, `FutureNoReply` spawns the
future, `Reply m` writes `m` synchronously through the channel in the same
dispatch, and `FutureReply` spawns an independent task whose completion
pushes `(peer, response)` into the internal reply queue instead of writing
the channel. -/
theorem c5_request_dispatch (h : Handler) (peer : Peer) (req : Request)
    (v : InvalidMessage) :
    ((HandlerDriver.handleMessage h peer (.request req)).isOk = true)
    ∧ ((HandlerDriver.handleMessage h peer (.invalid v)).isOk = true)
    ∧ (h.handleCall peer req = .NoReply →
      HandlerDriver.handleRequest h peer req = [])
    ∧ (∀ f, h.handleCall peer req = .FutureNoReply f →
      HandlerDriver.handleRequest h peer req = [.spawnNoReply f])
    ∧ (∀ m, h.handleCall peer req = .Reply m →
      HandlerDriver.handleRequest h peer req = [.replyDirect peer m])
    ∧ (∀ f, h.handleCall peer req = .FutureReply f →
      HandlerDriver.handleRequest h peer req = [.spawnDeferredReply peer f])
    ∧ (h.handleInvalidMessage peer v = .NoReply →
      HandlerDriver.handleInvalid h peer v = [])
    ∧ (∀ f, h.handleInvalidMessage peer v = .FutureNoReply f →
      HandlerDriver.handleInvalid h peer v = [.spawnNoReply f])
    ∧ (∀ m, h.handleInvalidMessage peer v = .Reply m →
      HandlerDriver.handleInvalid h peer v = [.replyDirect peer m])
    ∧ (∀ f, h.handleInvalidMessage peer v = .FutureReply f →
      HandlerDriver.handleInvalid h peer v = [.spawnDeferredReply peer f])
    ∧ (∀ resp q, deferredCompletion peer resp q = q ++ [(peer, resp)]) := by
  refine ⟨?_, ?_, ?_, ?_, ?_, ?_, ?_, ?_, ?_, ?_, ?_⟩
  · simp [HandlerDriver.handleMessage, Except.isOk, Except.toBool]
  · simp [HandlerDriver.handleMessage, Except.isOk, Except.toBool]
  · intro ha; simp [HandlerDriver.handleRequest, ha]
  · intro f ha; simp [HandlerDriver.handleRequest, ha]
  · intro m ha; simp [HandlerDriver.handleRequest, ha]
  · intro f ha; simp [HandlerDriver.handleRequest, ha]
  · intro ha; simp [HandlerDriver.handleInvalid, ha]
  · intro f ha; simp [HandlerDriver.handleInvalid, ha]
  · intro m ha; simp [HandlerDriver.handleInvalid, ha]
  · intro f ha; simp [HandlerDriver.handleInvalid, ha]
  · intro resp q; rfl

/-- Witness for C5 at the deferred-reply handler. -/
theorem c5_witness :
    HandlerDriver.handleRequest hDeferred 8 1 = [.spawnDeferredReply 8 3]
    ∧ HandlerDriver.handleInvalid hDeferred 8 2 = [.replyDirect 8 8]
    ∧ deferredCompletion 8 44 [] = [(8, 44)] := by
  have h := c5_request_dispatch hDeferred 8 1 2
  exact ⟨h.2.2.2.2.2.1 3 rfl, h.2.2.2.2.2.2.2.2.1 8 rfl, h.2.2.2.2.2.2.2.2.2.2 44 []⟩

/-- C9: an accepted TCP connection makes exactly one fresh handler (the
factory counter advances by one) and spawns exactly one connection task,
while the listener itself stays listening — not ready, not an error; if
establishing the connection fails, the task delivers the error to that
fresh handler's `handle_transport_error` and builds no driver, and if it
succeeds the task builds a `HandlerDriver` over the new channel. -/
theorem c9_tcp_accept_isolation (addr : Peer)
    (res : Except Error (List SChanEv)) (rest : List AcceptEv) (k : Nat) :
    (TcpServerInner.listenStep (.conn addr res :: rest) k
      = (.notReady (.listening rest (k + 1)), [.spawnConn k addr res]))
    ∧ (∀ e, res = .error e → runConnTask res = (some e, none))
    ∧ (∀ script, res = .ok script →
      runConnTask res = (none, some (HandlerDriver.new script))) := by
  refine ⟨rfl, ?_, ?_⟩
  · intro e he; simp [runConnTask, he]
  · intro script hs; simp [runConnTask, hs]

/-- Witness for C9: a failed handshake is routed to the fresh handler and
the listener keeps accepting. -/
theorem c9_witness :
    TcpServerInner.listenStep [.conn 2 (.error (.transport 1))] 0
      = (.notReady (.listening [] 1), [.spawnConn 0 2 (.error (.transport 1))])
    ∧ runConnTask (.error (.transport 1)) = (some (.transport 1), none) := by
  have h := c9_tcp_accept_isolation 2 (.error (.transport 1)) [] 0
  exact ⟨h.1, h.2.1 (.transport 1) rfl⟩

theorem queueSends_append (a b : List SEffect) :
    queueSends (a ++ b) = queueSends a ++ queueSends b := by
  induction a with
  | nil => rfl
  | cons x rest ih => cases x <;> simp [queueSends, ih]

theorem queueSends_handleMessage (h : Handler) (peer : Peer) (m : RecvMessage)
    (effs : List SEffect) (hm : HandlerDriver.handleMessage h peer m = .ok effs) :
    queueSends effs = [] := by
  cases m with
  | indication i =>
    cases hi : h.handleCast peer i <;>
      simp [HandlerDriver.handleMessage, HandlerDriver.handleIndication, hi] at hm <;>
      subst hm <;> rfl
  | request r =>
    cases hi : h.handleCall peer r <;>
      simp [HandlerDriver.handleMessage, HandlerDriver.handleRequest, hi] at hm <;>
      subst hm <;> rfl
  | invalid v =>
    cases hi : h.handleInvalidMessage peer v <;>
      simp [HandlerDriver.handleMessage, HandlerDriver.handleInvalid, hi] at hm <;>
      subst hm <;> rfl

theorem drainOnly_notReady (q : List (Peer × Response)) :
    ∀ (acc : List SEffect) (ta : Bool) (s : HDrvSt) (effs : List SEffect),
      HandlerDriver.drainOnly ta acc q = (.notReady s, effs) →
      queueSends effs = queueSends acc ++ q ∧ s.queue = [] ∧ s.txAlive = ta := by
  induction q with
  | nil =>
    intro acc ta s effs hd
    cases ta <;> simp [HandlerDriver.drainOnly] at hd
    obtain ⟨h1, h2⟩ := hd
    subst h1 h2
    simp
  | cons pm rest ih =>
    intro acc ta s effs hd
    obtain ⟨p, m⟩ := pm
    simp [HandlerDriver.drainOnly] at hd
    obtain ⟨h1, h2, h3⟩ := ih (acc ++ [.replyFromQueue p m]) ta s effs hd
    refine ⟨?_, h2, h3⟩
    rw [h1, queueSends_append]
    simp [queueSends]

theorem drainOnly_no_other_results (q : List (Peer × Response)) :
    ∀ (acc : List SEffect) (ta : Bool),
      (∀ e, (HandlerDriver.drainOnly ta acc q).1 ≠ .errored e)
      ∧ ((HandlerDriver.drainOnly ta acc q).1 ≠ .terminated)
      ∧ (ta = true → (HandlerDriver.drainOnly ta acc q).1 ≠ .panicked .expectFailed) := by
  induction q with
  | nil =>
    intro acc ta
    cases ta <;> simp [HandlerDriver.drainOnly]
  | cons pm rest ih =>
    intro acc ta
    obtain ⟨p, m⟩ := pm
    simpa [HandlerDriver.drainOnly] using ih (acc ++ [.replyFromQueue p m]) ta

theorem pollLoop_notReady (h : Handler) (script : List SChanEv) :
    ∀ (acc : List SEffect) (q : List (Peer × Response)) (ta : Bool)
      (s : HDrvSt) (effs : List SEffect),
      HandlerDriver.pollLoop h acc script q ta = (.notReady s, effs) →
      queueSends effs = queueSends acc ++ q ∧ s.queue = [] ∧ s.txAlive = ta := by
  induction script with
  | nil =>
    intro acc q ta s effs hp
    exact drainOnly_notReady q acc ta s effs hp
  | cons ev rest ih =>
    intro acc q ta s effs hp
    cases ev with
    | chanErr e => simp [HandlerDriver.pollLoop] at hp
    | endOfStream => simp [HandlerDriver.pollLoop] at hp
    | notReady =>
      cases q with
      | cons pm qrest =>
        obtain ⟨p, m⟩ := pm
        simp only [HandlerDriver.pollLoop] at hp
        obtain ⟨h1, h2, h3⟩ := ih (acc ++ [.replyFromQueue p m]) qrest ta s effs hp
        refine ⟨?_, h2, h3⟩
        rw [h1, queueSends_append]
        simp [queueSends]
      | nil =>
        cases ta <;> simp [HandlerDriver.pollLoop] at hp
        obtain ⟨h1, h2⟩ := hp
        subst h1 h2
        simp
    | msg peer m =>
      simp only [HandlerDriver.pollLoop] at hp
      cases hm : HandlerDriver.handleMessage h peer m with
      | error p => rw [hm] at hp; simp at hp
      | ok effs0 =>
        rw [hm] at hp
        have hq0 : queueSends effs0 = [] := queueSends_handleMessage h peer m effs0 hm
        cases q with
        | cons pm qrest =>
          obtain ⟨p, m2⟩ := pm
          simp only at hp
          obtain ⟨h1, h2, h3⟩ := ih (acc ++ effs0 ++ [.replyFromQueue p m2]) qrest ta s effs hp
          refine ⟨?_, h2, h3⟩
          rw [h1, queueSends_append, queueSends_append, hq0]
          simp [queueSends]
        | nil =>
          cases ta with
          | false => simp at hp
          | true =>
            simp at hp
            obtain ⟨h1, h2, h3⟩ := ih (acc ++ effs0) [] true s effs hp
            rw [queueSends_append, hq0] at h1
            refine ⟨?_, h2, h3⟩
            simpa using h1

/-- C6: whenever a `HandlerDriver` poll turn returns not-ready, every item
that was available in the internal reply queue has been forwarded to the
channel with `reply(peer, response)` — in exactly the order the deferred
computations completed (the queue order) — and the queue is left empty. -/
theorem c6_reply_queue_drained (h : Handler) (st : HDrvSt) (s : HDrvSt)
    (effs : List SEffect)
    (hp : HandlerDriver.poll h st = (.notReady s, effs)) :
    queueSends effs = st.queue ∧ s.queue = [] := by
  obtain ⟨h1, h2, _⟩ := pollLoop_notReady h st.script [] st.queue st.txAlive s effs hp
  exact ⟨by simpa [queueSends] using h1, h2⟩

/-- Witness for C6: two completed deferred replies and one inbound request
are all handled in one turn, the queue items forwarded in completion
order. -/
theorem c6_witness :
    HandlerDriver.poll hNoop ⟨[.msg 1 (.request 4), .notReady], [(2, 20), (3, 30)], true⟩
      = (.notReady ⟨[], [], true⟩,
          [.replyFromQueue 2 20, .replyFromQueue 3 30])
    ∧ queueSends [SEffect.replyFromQueue 2 20, SEffect.replyFromQueue 3 30]
      = [(2, 20), (3, 30)] := by
  refine ⟨by rfl, ?_⟩
  exact (c6_reply_queue_drained hNoop
    ⟨[.msg 1 (.request 4), .notReady], [(2, 20), (3, 30)], true⟩
    ⟨[], [], true⟩ [.replyFromQueue 2 20, .replyFromQueue 3 30] (by rfl)).1

theorem pollLoop_errored (h : Handler) (script : List SChanEv) :
    ∀ (acc : List SEffect) (q : List (Peer × Response)) (ta : Bool)
      (e : Error) (effs : List SEffect),
      HandlerDriver.pollLoop h acc script q ta = (.errored e, effs) →
      effs.getLast? = some (.notifyTransportError e) := by
  induction script with
  | nil =>
    intro acc q ta e effs hp
    exact absurd (congrArg Prod.fst hp) ((drainOnly_no_other_results q acc ta).1 e)
  | cons ev rest ih =>
    intro acc q ta e effs hp
    cases ev with
    | chanErr e2 =>
      simp [HandlerDriver.pollLoop] at hp
      obtain ⟨h1, h2⟩ := hp
      subst h1 h2
      simp
    | endOfStream => simp [HandlerDriver.pollLoop] at hp
    | notReady =>
      cases q with
      | cons pm qrest =>
        obtain ⟨p, m⟩ := pm
        exact ih (acc ++ [.replyFromQueue p m]) qrest ta e effs hp
      | nil => cases ta <;> simp [HandlerDriver.pollLoop] at hp
    | msg peer m =>
      simp only [HandlerDriver.pollLoop] at hp
      cases hm : HandlerDriver.handleMessage h peer m with
      | error p => rw [hm] at hp; simp at hp
      | ok effs0 =>
        rw [hm] at hp
        cases q with
        | cons pm qrest =>
          obtain ⟨p, m2⟩ := pm
          exact ih (acc ++ effs0 ++ [.replyFromQueue p m2]) qrest ta e effs hp
        | nil =>
          cases ta with
          | false => simp at hp
          | true => simp at hp; exact ih (acc ++ effs0) [] true e effs hp

/-- C7: a transport error observed while polling the channel is first
reported to the handler with `handle_transport_error` — the notification is
the last effect of the turn — and then the very same error is returned,
terminating the driver; a clean end of the channel's inbound stream makes
the driver complete successfully. -/
theorem c7_transport_error_propagation (h : Handler) :
    (∀ (st : HDrvSt) (e : Error) (effs : List SEffect),
      HandlerDriver.poll h st = (.errored e, effs) →
      effs.getLast? = some (.notifyTransportError e))
    ∧ (∀ (acc : List SEffect) (rest : List SChanEv) (q : List (Peer × Response))
        (ta : Bool),
      HandlerDriver.pollLoop h acc (.endOfStream :: rest) q ta = (.terminated, acc))
    ∧ (∀ (st : HDrvSt) (rest : List SChanEv), st.script = .endOfStream :: rest →
      HandlerDriver.poll h st = (.terminated, [])) := by
  refine ⟨?_, ?_, ?_⟩
  · intro st e effs hp
    exact pollLoop_errored h st.script [] st.queue st.txAlive e effs hp
  · intro acc rest q ta
    rfl
  · intro st rest hs
    simp [HandlerDriver.poll, hs, HandlerDriver.pollLoop]

/-- Witness for C7: a transport error after one message is notified last,
and a clean end of stream terminates the driver. -/
theorem c7_witness :
    ([SEffect.replyFromQueue 2 20,
        SEffect.notifyTransportError (.transport 9)].getLast?
      = some (.notifyTransportError (.transport 9)))
    ∧ HandlerDriver.poll hNoop ⟨[.endOfStream], [(1, 5)], true⟩ = (.terminated, []) := by
  refine ⟨?_, ?_⟩
  · exact (c7_transport_error_propagation hNoop).1
      ⟨[.notReady, .chanErr (.transport 9)], [(2, 20)], true⟩ (.transport 9)
      [.replyFromQueue 2 20, .notifyTransportError (.transport 9)] (by rfl)
  · exact (c7_transport_error_propagation hNoop).2.2 ⟨[.endOfStream], [(1, 5)], true⟩ [] rfl

theorem pollLoop_no_expectFailed (h : Handler) (script : List SChanEv) :
    ∀ (acc : List SEffect) (q : List (Peer × Response)),
      (HandlerDriver.pollLoop h acc script q true).1 ≠ .panicked .expectFailed := by
  induction script with
  | nil =>
    intro acc q
    exact (drainOnly_no_other_results q acc true).2.2 rfl
  | cons ev rest ih =>
    intro acc q
    cases ev with
    | chanErr e => simp [HandlerDriver.pollLoop]
    | endOfStream => simp [HandlerDriver.pollLoop]
    | notReady =>
      cases q with
      | cons pm qrest =>
        obtain ⟨p, m⟩ := pm
        exact ih (acc ++ [.replyFromQueue p m]) qrest
      | nil => simp [HandlerDriver.pollLoop]
    | msg peer m =>
      simp only [HandlerDriver.pollLoop]
      cases hm : HandlerDriver.handleMessage h peer m with
      | error p =>
        simp only
        intro hcontra
        injection hcontra with hp2
        rw [hp2] at hm
        exact absurd hm (by
          cases m with
          | indication i =>
            cases hi : h.handleCast peer i <;>
              simp [HandlerDriver.handleMessage, HandlerDriver.handleIndication, hi]
          | request r => simp [HandlerDriver.handleMessage]
          | invalid v => simp [HandlerDriver.handleMessage])
      | ok effs0 =>
        cases q with
        | cons pm qrest =>
          obtain ⟨p, m2⟩ := pm
          simp only
          exact ih (acc ++ effs0 ++ [.replyFromQueue p m2]) qrest
        | nil =>
          simp only [if_pos rfl]
          exact ih (acc ++ effs0) []

/-- C10: the driver keeps its own reply-queue sender from construction on
(`HandlerDriver::new` sets it and nothing ever clears it), so as long as
it is held the reply-queue read can never observe end of stream: no poll
turn ever hits the `expect("never fails")` on that read, and the sender is
still held in the not-ready continuation state. -/
theorem c10_reply_queue_read_never_ends (h : Handler) :
    (∀ script, (HandlerDriver.new script).txAlive = true)
    ∧ (∀ (acc : List SEffect) (script : List SChanEv) (q : List (Peer × Response)),
      (HandlerDriver.pollLoop h acc script q true).1 ≠ .panicked .expectFailed)
    ∧ (∀ (st : HDrvSt) (s : HDrvSt) (effs : List SEffect), st.txAlive = true →
      HandlerDriver.poll h st = (.notReady s, effs) → s.txAlive = true) := by
  refine ⟨fun _ => rfl, ?_, ?_⟩
  · intro acc script q
    exact pollLoop_no_expectFailed h script acc q
  · intro st s effs hta hp
    rw [HandlerDriver.poll, hta] at hp
    exact (pollLoop_notReady h st.script [] st.queue true s effs hp).2.2

/-- Witness for C10 on a fresh driver with a quiet channel. -/
theorem c10_witness :
    (HandlerDriver.new [SChanEv.notReady]).txAlive = true
    ∧ (HandlerDriver.pollLoop hNoop [] [.notReady] [] true).1 ≠ .panicked .expectFailed
    ∧ (HandlerDriver.poll hNoop ⟨[.notReady], [], true⟩
        = (.notReady ⟨[], [], true⟩, []) →
      (⟨[], [], true⟩ : HDrvSt).txAlive = true) := by
  refine ⟨(c10_reply_queue_read_never_ends hNoop).1 [SChanEv.notReady], ?_, ?_⟩
  · exact (c10_reply_queue_read_never_ends hNoop).2.1 [] [.notReady] []
  · exact (c10_reply_queue_read_never_ends hNoop).2.2 ⟨[.notReady], [], true⟩ ⟨[], [], true⟩ [] rfl

/-- C8: neither server future ever completes successfully. A running UDP
server whose driver completes cleanly returns the fatal "unexpectedly
terminated" error; a listening TCP server whose accept stream ends returns
its fatal "unexpectedly terminated" error; and both lifecycles only move
forward (Binding to Running, Binding to Listening), never backward. -/
theorem c8_servers_never_complete (h : Handler) :
    (∀ st : UdpState, (UdpServerInner.poll h st).1 ≠ .ready)
    ∧ (∀ d : HDrvSt, (HandlerDriver.poll h d).1 = .terminated →
      (UdpServerInner.poll h (.running d)).1
        = .err (.other "UDP server unexpectedly terminated"))
    ∧ (∀ st : TcpState, (TcpServerInner.poll st).1 ≠ .ready)
    ∧ (∀ (rest : List AcceptEv) (k : Nat),
      TcpServerInner.listenStep (.endOfAccepts :: rest) k
        = (.err (.other "TCP server unexpectedly terminated"), []))
    ∧ (∀ (st st2 : UdpState) (effs : List SEffect),
      UdpServerInner.poll h st = (.notReady st2, effs) → st.rank ≤ st2.rank)
    ∧ (∀ (st st2 : TcpState) (effs : List TcpEffect),
      TcpServerInner.poll st = (.notReady st2, effs) → st.rank ≤ st2.rank) := by
  have hdrv : ∀ d : HDrvSt, ∀ r : UdpRes, ∀ effs,
      UdpServerInner.pollDriver h d = (r, effs) →
      r ≠ .ready ∧ (∀ s2 e2, r = .notReady s2 → e2 ∈ effs → True) ∧
        (∀ s2, r = .notReady s2 → s2.rank = 1) := by
    intro d r effs hp
    rw [UdpServerInner.pollDriver] at hp
    cases hres : HandlerDriver.poll h d with
    | mk fst snd =>
      rw [hres] at hp
      cases fst <;> simp at hp <;>
        (obtain ⟨h1, h2⟩ := hp; subst h1; simp [UdpState.rank])
  refine ⟨?_, ?_, ?_, ?_, ?_, ?_⟩
  · intro st hcontra
    cases st with
    | binding b cs =>
      cases b with
      | pendingBind => simp [UdpServerInner.poll] at hcontra
      | bound =>
        rw [UdpServerInner.poll] at hcontra
        have := (hdrv (HandlerDriver.new cs) _ _
          (Prod.mk.eta (p := UdpServerInner.pollDriver h (HandlerDriver.new cs))).symm).1
        exact this hcontra
      | bindFailed e => simp [UdpServerInner.poll] at hcontra
    | running d =>
      rw [UdpServerInner.poll] at hcontra
      have := (hdrv d _ _
        (Prod.mk.eta (p := UdpServerInner.pollDriver h d)).symm).1
      exact this hcontra
  · intro d ht
    rw [UdpServerInner.poll, UdpServerInner.pollDriver]
    cases hres : HandlerDriver.poll h d with
    | mk fst snd =>
      rw [hres] at ht
      simp at ht
      subst ht
      rfl
  · intro st hcontra
    cases st with
    | binding b acc =>
      cases b with
      | pendingBind => simp [TcpServerInner.poll] at hcontra
      | bound =>
        rw [TcpServerInner.poll] at hcontra
        cases acc with
        | nil => simp [TcpServerInner.listenStep] at hcontra
        | cons ev rest =>
          cases ev <;> simp [TcpServerInner.listenStep] at hcontra
      | bindFailed e => simp [TcpServerInner.poll] at hcontra
    | listening acc k =>
      rw [TcpServerInner.poll] at hcontra
      cases acc with
      | nil => simp [TcpServerInner.listenStep] at hcontra
      | cons ev rest =>
        cases ev <;> simp [TcpServerInner.listenStep] at hcontra
  · intro rest k
    rfl
  · intro st st2 effs hp
    cases st with
    | binding b cs =>
      cases b with
      | pendingBind => simp [UdpState.rank]
      | bound =>
        rw [UdpServerInner.poll] at hp
        have := (hdrv (HandlerDriver.new cs) _ _
          (Prod.mk.eta (p := UdpServerInner.pollDriver h (HandlerDriver.new cs))).symm).2.2
        rw [hp] at this
        rw [this st2 rfl]
        simp [UdpState.rank]
      | bindFailed e => simp [UdpServerInner.poll] at hp
    | running d =>
      rw [UdpServerInner.poll] at hp
      have := (hdrv d _ _
        (Prod.mk.eta (p := UdpServerInner.pollDriver h d)).symm).2.2
      rw [hp] at this
      rw [this st2 rfl]
      simp [UdpState.rank]
  · intro st st2 effs hp
    have hlisten : ∀ acc k, TcpServerInner.listenStep acc k = (.notReady st2, effs) →
        st2.rank = 1 := by
      intro acc k hl
      cases acc with
      | nil =>
        simp [TcpServerInner.listenStep] at hl
        obtain ⟨h1, h2⟩ := hl
        subst h1
        rfl
      | cons ev rest =>
        cases ev <;> simp [TcpServerInner.listenStep] at hl <;>
          (obtain ⟨h1, h2⟩ := hl; subst h1; rfl)
    cases st with
    | binding b acc =>
      cases b with
      | pendingBind => simp [TcpState.rank]
      | bound =>
        rw [TcpServerInner.poll] at hp
        rw [hlisten acc 0 hp]
        simp [TcpState.rank]
      | bindFailed e => simp [TcpServerInner.poll] at hp
    | listening acc k =>
      rw [TcpServerInner.poll] at hp
      rw [hlisten acc k hp]
      simp [TcpState.rank]

/-- Witness for C8: clean driver completion on UDP and accept-stream end on
TCP both produce the fatal error, concretely. -/
theorem c8_witness :
    (UdpServerInner.poll hNoop (.running ⟨[.endOfStream], [], true⟩)).1
      = .err (.other "UDP server unexpectedly terminated")
    ∧ TcpServerInner.listenStep [.endOfAccepts] 3
      = (.err (.other "TCP server unexpectedly terminated"), [])
    ∧ (UdpServerInner.poll hNoop (.binding .pendingBind [])).1 ≠ .ready := by
  refine ⟨?_, (c8_servers_never_complete hNoop).2.2.2.1 [] 3, ?_⟩
  · exact (c8_servers_never_complete hNoop).2.1 ⟨[.endOfStream], [], true⟩ rfl
  · exact (c8_servers_never_complete hNoop).1 (.binding .pendingBind [])

theorem handleCommands_slots (cmds : List Command) :
    ∀ st : CDrv,
      (ChannelDriver.handleCommands st cmds).2.map CEffect.slot = callSlots cmds := by
  induction cmds with
  | nil => intro st; rfl
  | cons c rest ih =>
    intro st
    cases c with
    | call peer req slot =>
      cases hc : st.channel with
      | ok ch =>
        simp [ChannelDriver.handleCommands, ChannelDriver.handleCommand, hc,
          callSlots, CEffect.slot, Chan.call, ih]
      | error e =>
        simp [ChannelDriver.handleCommands, ChannelDriver.handleCommand, hc,
          callSlots, CEffect.slot, ih]
    | cast peer ind =>
      cases hc : st.channel with
      | ok ch =>
        simp [ChannelDriver.handleCommands, ChannelDriver.handleCommand, hc,
          callSlots, ih]
      | error e =>
        simp [ChannelDriver.handleCommands, ChannelDriver.handleCommand, hc,
          callSlots, ih]

theorem handleCommands_failed (cmds : List Command) :
    ∀ (st : CDrv) (e : Error), st.channel = .error e →
      (ChannelDriver.handleCommands st cmds).1.channel = .error e
      ∧ ∀ eff ∈ (ChannelDriver.handleCommands st cmds).2,
          ∃ s, eff = .resolveNow s (.error e) := by
  induction cmds with
  | nil =>
    intro st e hc
    exact ⟨hc, by simp [ChannelDriver.handleCommands]⟩
  | cons c rest ih =>
    intro st e hc
    cases c with
    | call peer req slot =>
      have hstep : ChannelDriver.handleCommand st (.call peer req slot)
          = (st, [.resolveNow slot (.error e)]) := by
        simp [ChannelDriver.handleCommand, hc]
      simp only [ChannelDriver.handleCommands, hstep]
      refine ⟨(ih st e hc).1, ?_⟩
      intro eff hmem
      simp at hmem
      rcases hmem with h | h
      · exact ⟨slot, h⟩
      · exact (ih st e hc).2 eff h
    | cast peer ind =>
      have hstep : ChannelDriver.handleCommand st (.cast peer ind) = (st, []) := by
        simp [ChannelDriver.handleCommand, hc]
      simp only [ChannelDriver.handleCommands, hstep]
      refine ⟨(ih st e hc).1, ?_⟩
      intro eff hmem
      simp at hmem
      exact (ih st e hc).2 eff hmem

theorem handleCommands_live (cmds : List Command) :
    ∀ (st : CDrv) (c : Chan), st.channel = .ok c →
      ∃ c2 : Chan, (ChannelDriver.handleCommands st cmds).1.channel = .ok c2
        ∧ c2.nextTx = c.nextTx + numCalls cmds
        ∧ (ChannelDriver.handleCommands st cmds).2.filterMap CEffect.tx?
            = List.range' c.nextTx (numCalls cmds)
        ∧ ∀ eff ∈ (ChannelDriver.handleCommands st cmds).2,
            ∃ s t, eff = .spawnCompletion s t := by
  induction cmds with
  | nil =>
    intro st c hc
    refine ⟨c, hc, by simp [numCalls, callSlots], ?_, by simp [ChannelDriver.handleCommands]⟩
    simp [ChannelDriver.handleCommands, numCalls, callSlots, List.range']
  | cons cmd rest ih =>
    intro st c hc
    cases cmd with
    | call peer req slot =>
      have hstep : ChannelDriver.handleCommand st (.call peer req slot)
          = ({ st with channel :=
                Except.ok { c with nextTx := c.nextTx + 1, outstanding := c.outstanding + 1 } },
             [.spawnCompletion slot c.nextTx]) := by
        simp [ChannelDriver.handleCommand, hc, Chan.call]
      obtain ⟨c2, h1, h2, h3, h4⟩ := ih
        { st with channel :=
            Except.ok { c with nextTx := c.nextTx + 1, outstanding := c.outstanding + 1 } }
        { c with nextTx := c.nextTx + 1, outstanding := c.outstanding + 1 } rfl
      refine ⟨c2, ?_, ?_, ?_, ?_⟩
      · simp only [ChannelDriver.handleCommands, hstep]
        exact h1
      · simp only [numCalls, callSlots, List.length_cons] at h2 ⊢
        omega
      · simp only [ChannelDriver.handleCommands, hstep, List.filterMap_append]
        simp only at h3
        rw [h3]
        simp only [numCalls, callSlots, List.length_cons]
        simp [List.range', CEffect.tx?, List.filterMap]
      · intro eff hmem
        simp only [ChannelDriver.handleCommands, hstep, List.mem_append] at hmem
        rcases hmem with h | h
        · simp at h
          exact ⟨slot, c.nextTx, h⟩
        · exact h4 eff h
    | cast peer ind =>
      have hstep : ChannelDriver.handleCommand st (.cast peer ind)
          = ({ st with channel := .ok (c.cast peer ind) }, []) := by
        simp [ChannelDriver.handleCommand, hc]
      obtain ⟨c2, h1, h2, h3, h4⟩ := ih
        { st with channel := Except.ok (c.cast peer ind) } (c.cast peer ind) rfl
      refine ⟨c2, ?_, ?_, ?_, ?_⟩
      · simp only [ChannelDriver.handleCommands, hstep]
        exact h1
      · simpa [Chan.cast, numCalls, callSlots] using h2
      · simp only [ChannelDriver.handleCommands, hstep, List.filterMap_append]
        simpa [Chan.cast, numCalls, callSlots] using h3
      · intro eff hmem
        simp only [ChannelDriver.handleCommands, hstep, List.mem_append] at hmem
        rcases hmem with h | h
        · simp at h
        · exact h4 eff h

theorem filter_slot_length (l : List CEffect) (s : SlotId) :
    (l.filter (fun eff => eff.slot = s)).length
      = ((l.map CEffect.slot).filter (fun x => x = s)).length := by
  induction l with
  | nil => rfl
  | cons e rest ih =>
    by_cases h : e.slot = s <;> simp [h, ih]

theorem count_one_of_nodup (l : List Nat) :
    l.Nodup → ∀ s ∈ l, (l.filter (fun x => x = s)).length = 1 := by
  induction l with
  | nil => intro _ s hs; simp at hs
  | cons a rest ih =>
    intro hnd s hs
    rw [List.nodup_cons] at hnd
    simp at hs
    rcases hs with h | h
    · subst h
      have hnil : rest.filter (fun x => x = s) = [] := by
        rw [List.filter_eq_nil_iff]
        intro b hb
        simp
        intro hbs
        exact hnd.1 (hbs ▸ hb)
      simp [hnil]
    · have hne : ¬(a = s) := fun has => hnd.1 (has ▸ h)
      simp [hne, ih hnd.2 s h]

/-- C1: over any batch of handled commands whose call reply-slots are
pairwise distinct (each `Client::call` makes a fresh oneshot), every `Call`
command produces exactly one resolution effect for its own slot — immediate
with the stored error clone when the channel has failed, or a spawned
completion bound to the call future of that very invocation when it is
live — each effect writes its slot exactly once, and the spawned
completions of distinct calls are bound to pairwise distinct call futures,
so no two calls can receive each other's outcomes. -/
theorem c1_call_resolved_exactly_once (st : CDrv) (cmds : List Command)
    (hnd : (callSlots cmds).Nodup) :
    ((ChannelDriver.handleCommands st cmds).2.map CEffect.slot = callSlots cmds)
    ∧ (∀ s ∈ callSlots cmds,
        ((ChannelDriver.handleCommands st cmds).2.filter
          (fun eff => eff.slot = s)).length = 1)
    ∧ ((ChannelDriver.handleCommands st cmds).2.filterMap CEffect.tx?).Nodup
    ∧ (∀ (outcome : Nat → Except Error Response) (eff : CEffect),
        (runCompletion outcome eff).map Prod.fst = [eff.slot])
    ∧ (∀ e, st.channel = .error e →
        ∀ eff ∈ (ChannelDriver.handleCommands st cmds).2,
          eff = .resolveNow eff.slot (.error e))
    ∧ (∀ c, st.channel = .ok c →
        ∀ eff ∈ (ChannelDriver.handleCommands st cmds).2,
          ∃ s t, eff = .spawnCompletion s t
            ∧ ∀ outcome : Nat → Except Error Response,
                runCompletion outcome eff = [(s, outcome t)]) := by
  refine ⟨handleCommands_slots cmds st, ?_, ?_, ?_, ?_, ?_⟩
  · intro s hs
    rw [filter_slot_length, handleCommands_slots cmds st]
    exact count_one_of_nodup (callSlots cmds) hnd s hs
  · cases hc : st.channel with
    | error e =>
      have hall := (handleCommands_failed cmds st e hc).2
      have hnil : (ChannelDriver.handleCommands st cmds).2.filterMap CEffect.tx? = [] := by
        rw [List.filterMap_eq_nil_iff]
        intro eff hmem
        obtain ⟨s, hs⟩ := hall eff hmem
        rw [hs]
        rfl
      rw [hnil]
      exact List.nodup_nil
    | ok c =>
      obtain ⟨c2, _, _, h3, _⟩ := handleCommands_live cmds st c hc
      rw [h3]
      exact List.nodup_range' c.nextTx (numCalls cmds)
  · intro outcome eff
    cases eff <;> rfl
  · intro e hc eff hmem
    obtain ⟨s, hs⟩ := (handleCommands_failed cmds st e hc).2 eff hmem
    rw [hs]
    rfl
  · intro c hc eff hmem
    obtain ⟨c2, _, _, _, h4⟩ := handleCommands_live cmds st c hc
    obtain ⟨s, t, hs⟩ := h4 eff hmem
    exact ⟨s, t, hs, fun outcome => by rw [hs]; rfl⟩

/-- Witness for C1 at a concrete live driver and a concrete batch of two
calls and one cast. -/
theorem c1_witness :
    (callSlots [.call 1 10 0, .cast 2 5, .call 3 11 1]).Nodup
    ∧ ((ChannelDriver.handleCommands ⟨.ok ⟨0, 0, [], []⟩, [], false⟩
        [.call 1 10 0, .cast 2 5, .call 3 11 1]).2.map CEffect.slot = [0, 1])
    ∧ ((ChannelDriver.handleCommands ⟨.ok ⟨0, 0, [], []⟩, [], false⟩
        [.call 1 10 0, .cast 2 5, .call 3 11 1]).2.filterMap CEffect.tx?).Nodup := by
  have h := c1_call_resolved_exactly_once ⟨.ok ⟨0, 0, [], []⟩, [], false⟩
    [.call 1 10 0, .cast 2 5, .call 3 11 1] (by decide)
  exact ⟨by decide, by rw [h.1]; rfl, h.2.2.1⟩

theorem drainAux_flag (cmds : List Command) :
    ∀ (closed : Bool) (ch : Except Error Chan),
      (ChannelDriver.drainAux closed ch cmds).2.2
        = (closed && (liveOutstanding (ChannelDriver.drainAux closed ch cmds).1 == 0)) := by
  induction cmds with
  | nil =>
    intro closed ch
    cases closed with
    | false => rfl
    | true => cases ch <;> rfl
  | cons c rest ih =>
    intro closed ch
    simp only [ChannelDriver.drainAux]
    exact ih closed (ChannelDriver.handleCommand ⟨ch, rest, closed⟩ c).1.channel

theorem chanLoop_ready_iff_eos (ch : Except Error Chan) :
    (ChannelDriver.chanLoop ch).2 = hitsEos ch := by
  cases ch with
  | error e => rfl
  | ok c =>
    cases hs : scanScript c.script <;>
      simp [ChannelDriver.chanLoop, hitsEos, hs]

/-- C2 counterexample: a driver whose command queue is still open (clients
alive, nothing buffered) but whose channel poll yields a clean end of the
inbound stream completes at once — terminating while the "queue closed"
condition is unmet, refuting the claim as stated. -/
theorem c2_counterexample :
    (⟨.ok ⟨0, 0, [.endOfStream], []⟩, [], false⟩ : CDrv).rxClosed = false
    ∧ (ChannelDriver.poll ⟨.ok ⟨0, 0, [.endOfStream], []⟩, [], false⟩).1
      = .ready := by
  exact ⟨rfl, rfl⟩

/-- C2 amended: one poll turn of the ClientDriver completes exactly when
either the command queue is closed and the outstanding-transaction count
observed after draining this turn's commands is zero (a failed channel
counting as zero), or the channel's poll yields a clean end of the inbound
message stream during the turn; it never completes otherwise. -/
theorem c2_termination_characterised (st : CDrv) :
    (ChannelDriver.poll st).1 = .ready ↔
      ((st.rxClosed = true ∧ outstandingAfterDrain st = 0)
        ∨ hitsEos (ChannelDriver.drainAux st.rxClosed st.channel st.pending).1 = true) := by
  have hflag := drainAux_flag st.pending st.rxClosed st.channel
  rw [ChannelDriver.poll]
  by_cases hb : (ChannelDriver.drainAux st.rxClosed st.channel st.pending).2.2 = true
  · rw [hb] at hflag
    rw [if_pos hb]
    constructor
    · intro _
      left
      have h1 : st.rxClosed = true := by
        cases hcl : st.rxClosed with
        | false => rw [hcl] at hflag; simp at hflag
        | true => rfl
      refine ⟨h1, ?_⟩
      rw [outstandingAfterDrain, h1]
      rw [h1] at hflag
      simp at hflag
      omega
    · intro _
      rfl
  · rw [Bool.not_eq_true] at hb
    rw [hb] at hflag
    have hb2 : ¬((ChannelDriver.drainAux st.rxClosed st.channel st.pending).2.2 = true) := by
      simp [hb]
    rw [if_neg hb2]
    cases hc2 : (ChannelDriver.chanLoop
        (ChannelDriver.drainAux st.rxClosed st.channel st.pending).1).2 with
    | true =>
      rw [if_pos hc2]
      constructor
      · intro _
        right
        rw [← chanLoop_ready_iff_eos]
        exact hc2
      · intro _
        rfl
    | false =>
      have hc3 : ¬((ChannelDriver.chanLoop
          (ChannelDriver.drainAux st.rxClosed st.channel st.pending).1).2 = true) := by
        simp [hc2]
      rw [if_neg hc3]
      constructor
      · intro hr
        exact absurd hr (by simp)
      · intro hd
        exfalso
        rcases hd with ⟨h1, h2⟩ | h2
        · rw [outstandingAfterDrain] at h2
          rw [h2] at hflag
          rw [h1] at hflag
          simp at hflag
        · rw [← chanLoop_ready_iff_eos] at h2
          rw [hc2] at h2
          simp at h2
